import Mathlib

/-!
Shallow embedding of the FFI sample library of this repository
(`src/samples/build/source/c/ffi.c` and `src/samples/build/source/ffi.cc`),
together with proofs of the behavioural properties stated in the
specification.

Modelling conventions:
* C strings are represented by the list of their content bytes
  (`List Nat`, terminator excluded); a byte buffer that includes a
  terminator is also a `List Nat` and is read back as a C string with
  `cString` (take up to the first null byte).
* `double` values are only ever copied by this code (no floating-point
  arithmetic occurs), so they are represented by their 64-bit patterns
  as natural numbers; a copy is bit-exact by construction.
* `int32_t` arithmetic is modelled on `Int` with explicit wrap-around
  (`wrap32`).
* The stateful `ComplexObject` class is modelled by explicit state
  passing: a setter returns the new state, the (const) getter returns
  the pair (result, post-state).
* A caller-supplied callback `void (*)(int)` mutates caller-side state,
  so it is modelled as a state transformer `σ → Int → σ`; the bridge
  threads the caller state through it.
-/

/-- Read a byte buffer back as a C string: the bytes before the first
null terminator. -/
def cString (buf : List Nat) : List Nat :=
  buf.takeWhile (fun b => b != 0)

/-- The `FFIData` record of `ffi.c`: a 32-bit id, a 64-byte name buffer
and a double value (modelled by its 64-bit pattern). -/
structure FFIData where
  id : Int
  name : List Nat
  value : Nat
  deriving DecidableEq, Repr

/-- `strncpy(dst, src, n)` into a fresh buffer: at most `n` bytes are
copied from `src`; when `src` is shorter than `n` the remainder of the
`n` bytes is filled with null bytes. -/
def strncpyBytes (src : List Nat) (n : Nat) : List Nat :=
  src.take n ++ List.replicate (n - src.length) 0

/-- `create_data` of `ffi.c`: allocates an `FFIData`, stores `id` and
`value`, copies the name with `strncpy(data->name, name, 63)` and then
sets `data->name[63] = 0`.  The 64-byte name array is therefore the
63 bytes written by `strncpy` followed by the explicit terminator. -/
def create_data (id : Int) (name : List Nat) (value : Nat) : FFIData :=
  { id := id, name := strncpyBytes name 63 ++ [0], value := value }

/-- 32-bit signed wrap-around: reduce an integer into
`[-2^31, 2^31)` modulo `2^32` (the literals are `2^31` and `2^32`). -/
def wrap32 (n : Int) : Int :=
  (n + 2147483648) % 4294967296 - 2147483648

/-- `sum_array` of `ffi.c`: sums the first `len` elements of the buffer
into an `int32_t` accumulator starting from 0; every addition wraps. -/
def sum_array (arr : List Int) (len : Nat) : Int :=
  (arr.take len).foldl (fun s x => wrap32 (s + x)) 0

/-- `reverse_string` of `ffi.c`, the content bytes of the result: the
loop writes `result[i] = input[len - 1 - i]` for every `i < len`. -/
def reverse_string (input : List Nat) : List Nat :=
  (List.range input.length).map (fun i => input.getD (input.length - 1 - i) 0)

/-- The full freshly allocated buffer returned by `reverse_string`:
`len + 1` bytes, the reversed contents followed by `result[len] = 0`. -/
def reverse_string_buffer (input : List Nat) : List Nat :=
  reverse_string input ++ [0]

namespace FfiC

/-- `register_callback` of `ffi.c`: invokes the callback once,
immediately, with status 200.  The callback mutates caller-side state,
modelled as a state transformer. -/
def register_callback {σ : Type} (cb : σ → Int → σ) (s : σ) : σ :=
  cb s 200

end FfiC

namespace FfiCpp

/-- `register_callback` of `ffi.cc`: invokes the callback once,
immediately, with the value 42. -/
def register_callback {σ : Type} (cb : σ → Int → σ) (s : σ) : σ :=
  cb s 42

end FfiCpp

/-- `get_string` of `ffi.cc`: returns the constant string literal, byte
for byte (ASCII codes of the characters of the literal). -/
def get_string : List Nat :=
  [72, 101, 108, 108, 111, 32, 102, 114, 111, 109, 32, 67, 43, 43]

/-- `process_string` of `ffi.cc`: constructs a local `std::string` copy
of the input and discards it; no state visible across the boundary is
touched, so the embedding returns `Unit`. -/
def process_string (_input : List Nat) : Unit := ()

/-- The `FFIPoint` record of `ffi.cc`; the doubles are modelled by their
64-bit patterns. -/
structure FFIPoint where
  x : Nat
  y : Nat
  deriving DecidableEq, Repr

/-- `create_point` of `ffi.cc`: `new FFIPoint{x, y}`. -/
def create_point (x y : Nat) : FFIPoint :=
  { x := x, y := y }

/-- The `ComplexObject` class of `ffi.cc`: a single private `int` field. -/
structure ComplexObject where
  value_ : Int
  deriving DecidableEq, Repr

/-- `create_complex_object` of `ffi.cc`: `new ComplexObject()`, whose
constructor initialises `value_` to 0. -/
def create_complex_object : ComplexObject :=
  { value_ := 0 }

/-- `set_complex_value` of `ffi.cc`: `setValue` overwrites the field;
the new state is returned explicitly. -/
def set_complex_value (obj : ComplexObject) (v : Int) : ComplexObject :=
  { obj with value_ := v }

/-- `get_complex_value` of `ffi.cc`: `getValue` is a `const` member that
returns the field; the embedding returns the pair
(result, post-state of the holder). -/
def get_complex_value (obj : ComplexObject) : Int × ComplexObject :=
  (obj.value_, obj)

/-- A finite sequence of `set_complex_value` calls on a handle. -/
def run_set_calls (obj : ComplexObject) (vs : List Int) : ComplexObject :=
  vs.foldl set_complex_value obj

section Lemmas

/-- Reading a buffer of nonzero bytes followed by a null byte yields
exactly those bytes. -/
lemma cString_append_zero_cons (l t : List Nat) (h : ∀ b ∈ l, b ≠ 0) :
    cString (l ++ 0 :: t) = l := by
  induction l with
  | nil => simp [cString]
  | cons a l ih =>
    have ha : a ≠ 0 := h a (List.mem_cons_self a l)
    simp only [cString, List.cons_append, List.takeWhile_cons]
    simp only [bne_iff_ne, ne_eq, ha, not_false_eq_true, if_true]
    have := ih (fun b hb => h b (List.mem_cons_of_mem a hb))
    simpa [cString] using this

/-- The name buffer written by `create_data`, normalised: the copied
prefix, then a null byte, then the zero fill of `strncpy`. -/
lemma create_data_name_eq (id : Int) (name : List Nat) (value : Nat) :
    (create_data id name value).name =
      name.take 63 ++ 0 :: List.replicate (63 - name.length) 0 := by
  simp only [create_data, strncpyBytes, List.append_assoc]
  congr 1
  rw [← List.replicate_succ' (63 - name.length) 0, List.replicate_succ]

/-- Reading the stored name back as a C string yields the (possibly
truncated) input. -/
lemma cString_create_data (id : Int) (name : List Nat) (value : Nat)
    (h : ∀ b ∈ name, b ≠ 0) :
    cString (create_data id name value).name = name.take 63 := by
  rw [create_data_name_eq]
  exact cString_append_zero_cons _ _
    (fun b hb => h b (List.take_subset 63 name hb))

/-- The name array written by `create_data` is exactly 64 bytes. -/
lemma create_data_name_length (id : Int) (name : List Nat) (value : Nat) :
    (create_data id name value).name.length = 64 := by
  simp [create_data, strncpyBytes]
  omega

/-- The loop of `reverse_string` computes list reversal. -/
lemma reverse_string_eq_reverse (l : List Nat) :
    reverse_string l = l.reverse := by
  apply List.ext_getElem
  · simp [reverse_string]
  · intro i h1 h2
    simp only [reverse_string, List.getElem_map, List.getElem_range]
    have hi : i < l.length := by simpa [reverse_string] using h1
    have hlt : l.length - 1 - i < l.length := by omega
    rw [List.getD_eq_getElem l 0 hlt, List.getElem_reverse]

/-- One wrapping addition step absorbs a previous wrap of the
accumulator. -/
lemma wrap32_add_wrap32 (s x : Int) :
    wrap32 (wrap32 s + x) = wrap32 (s + x) := by
  unfold wrap32
  omega

/-- Folding wrapping additions over a list computes the wrapped sum. -/
lemma foldl_wrap32 (l : List Int) (s : Int) :
    l.foldl (fun a x => wrap32 (a + x)) (wrap32 s) = wrap32 (s + l.sum) := by
  induction l generalizing s with
  | nil => simp
  | cons x l ih =>
    simp only [List.foldl_cons, List.sum_cons]
    rw [wrap32_add_wrap32, ih, add_assoc]

/-- `wrap32` fixes zero. -/
lemma wrap32_zero : wrap32 0 = 0 := by
  unfold wrap32
  decide

end Lemmas

/-- Claim C1 (counterexample): the C++ entry point named
`register_callback` does not pass 200 to the callback: with a recording
callback starting from the empty trace, the trace after the call is
`[42]`, not `[200]`. -/
theorem register_callback_cpp_not_200 :
    ¬ (FfiCpp.register_callback (fun (t : List Int) x => t ++ [x]) [] = [200]) := by
  simp [FfiCpp.register_callback]

/-- Claim C1 (amended): each exported entry point named
`register_callback` invokes the caller-supplied callback exactly once,
synchronously within the same call, with a fixed argument — 200 for the
C entry point and 42 for the C++ entry point.  The first two conjuncts
say the call is exactly one application of the callback at the fixed
argument, for every caller state type; the last two instantiate a
recording callback and show the trace gains exactly one entry. -/
theorem register_callback_fixed_status :
    (∀ (σ : Type) (cb : σ → Int → σ) (s : σ),
        FfiC.register_callback cb s = cb s 200) ∧
    (∀ (σ : Type) (cb : σ → Int → σ) (s : σ),
        FfiCpp.register_callback cb s = cb s 42) ∧
    (∀ t : List Int,
        FfiC.register_callback (fun a x => a ++ [x]) t = t ++ [200]) ∧
    (∀ t : List Int,
        FfiCpp.register_callback (fun a x => a ++ [x]) t = t ++ [42]) :=
  ⟨fun _ _ _ => rfl, fun _ _ _ => rfl, fun _ => rfl, fun _ => rfl⟩

/-- Claim C2: for every id, every null-terminated name (a list of
nonzero bytes) and every double value, the record returned by
`create_data` stores the id unchanged, the value unchanged (bit-exact),
and a name that reads back as the first `min(len, 63)` bytes of the
input followed by a null terminator (the byte right after the copied
prefix is 0). -/
theorem create_data_fields (id : Int) (name : List Nat) (value : Nat)
    (hnz : ∀ b ∈ name, b ≠ 0) :
    (create_data id name value).id = id ∧
    (create_data id name value).value = value ∧
    cString (create_data id name value).name = name.take 63 ∧
    (create_data id name value).name.getD (min name.length 63) 1 = 0 := by
  refine ⟨rfl, rfl, cString_create_data id name value hnz, ?_⟩
  rw [create_data_name_eq]
  rcases Nat.le_total name.length 63 with h | h
  · rw [min_eq_left h]
    have hlen : (name.take 63).length = name.length := by
      simp [List.length_take, h]
    rw [List.getD_append_right _ _ _ _ (le_of_eq hlen)]
    simp [hlen]
  · rw [min_eq_right h]
    have hlen : (name.take 63).length = 63 := by
      simp [List.length_take, h]
    rw [List.getD_append_right _ _ _ _ (le_of_eq hlen)]
    simp [hlen]

/-- Witness for claim C2 at a concrete input: id 7, name "hi"
(bytes 104, 105), value pattern 3. -/
theorem create_data_fields_witness :
    (create_data 7 [104, 105] 3).id = 7 ∧
    (create_data 7 [104, 105] 3).value = 3 ∧
    cString (create_data 7 [104, 105] 3).name = [104, 105].take 63 ∧
    (create_data 7 [104, 105] 3).name.getD (min ([104, 105] : List Nat).length 63) 1 = 0 :=
  create_data_fields 7 [104, 105] 3 (by decide)

/-- Claim C3: for every input name strictly longer than 63 bytes, the
stored name reads back with length exactly 63 (terminator excluded),
the byte at index 63 of the stored array is the null terminator, and
the array written by `create_data` is exactly 64 bytes — no write
touches memory beyond the fixed-capacity field. -/
theorem create_data_truncates (id : Int) (name : List Nat) (value : Nat)
    (hnz : ∀ b ∈ name, b ≠ 0) (hlong : 63 < name.length) :
    (cString (create_data id name value).name).length = 63 ∧
    (create_data id name value).name.getD 63 1 = 0 ∧
    (create_data id name value).name.length = 64 := by
  refine ⟨?_, ?_, create_data_name_length id name value⟩
  · rw [cString_create_data id name value hnz]
    simp [List.length_take]
    omega
  · rw [create_data_name_eq]
    have hlen : (name.take 63).length = 63 := by
      simp [List.length_take]
      omega
    rw [List.getD_append_right _ _ _ _ (le_of_eq hlen)]
    simp [hlen]

/-- Witness for claim C3 at a concrete input: a 100-byte name of ones. -/
theorem create_data_truncates_witness :
    (cString (create_data 0 (List.replicate 100 1) 0).name).length = 63 ∧
    (create_data 0 (List.replicate 100 1) 0).name.getD 63 1 = 0 ∧
    (create_data 0 (List.replicate 100 1) 0).name.length = 64 :=
  create_data_truncates 0 (List.replicate 100 1) 0
    (by intro b hb; rw [List.eq_of_mem_replicate hb]; decide) (by simp)

/-- Claim C4: for every buffer and every length within the buffer,
`sum_array` returns the arithmetic sum of the first `len` elements with
32-bit wrap-around (modulo `2^32`) semantics — a total function, so no
overflow is ever raised or reported; the empty sum is 0 and
`sum_array [1,2,3] 3 = 6`. -/
theorem sum_array_spec (arr : List Int) (len : Nat) (_h : len ≤ arr.length) :
    sum_array arr len = wrap32 ((arr.take len).sum) ∧
    sum_array [] 0 = 0 ∧
    sum_array [1, 2, 3] 3 = 6 := by
  refine ⟨?_, by decide, by decide⟩
  unfold sum_array
  rw [← wrap32_zero, foldl_wrap32, zero_add]

/-- Witness for claim C4 at the concrete buffer `[1, 2, 3]` with
length 3. -/
theorem sum_array_spec_witness :
    sum_array [1, 2, 3] 3 = wrap32 (([1, 2, 3] : List Int).take 3).sum ∧
    sum_array [] 0 = 0 ∧
    sum_array [1, 2, 3] 3 = 6 :=
  sum_array_spec [1, 2, 3] 3 (by decide)

/-- Claim C5: for every input string, `reverse_string` produces the
bytes of the input in reverse order, of the same length as the input;
the freshly allocated buffer is those bytes followed by exactly one
null terminator; the empty input yields the empty string
(terminator-only buffer). -/
theorem reverse_string_spec (input : List Nat) :
    reverse_string input = input.reverse ∧
    (reverse_string input).length = input.length ∧
    reverse_string_buffer input = input.reverse ++ [0] ∧
    reverse_string [] = [] ∧
    reverse_string_buffer [] = [0] := by
  have h := reverse_string_eq_reverse input
  refine ⟨h, ?_, ?_, rfl, rfl⟩
  · rw [h, List.length_reverse]
  · rw [reverse_string_buffer, h]

/-- Claim C6: reversing twice is the identity on string contents:
`reverse_string (reverse_string s) = s`. -/
theorem reverse_string_involution (s : List Nat) :
    reverse_string (reverse_string s) = s := by
  rw [reverse_string_eq_reverse, reverse_string_eq_reverse,
    List.reverse_reverse]

/-- Claim C7: for every pair of double bit patterns `(x, y)`, the
record returned by `create_point` reads back bit-exactly as `(x, y)`. -/
theorem create_point_roundtrip (x y : Nat) :
    (create_point x y).x = x ∧ (create_point x y).y = y :=
  ⟨rfl, rfl⟩

/-- Claim C8: setting then getting returns the value just set; after
any finite sequence of set calls ending in `set v`, the getter returns
`v` (the most recent set); and the getter leaves the holder's state
unchanged. -/
theorem complex_object_get_set :
    (∀ (h : ComplexObject) (v : Int),
        (get_complex_value (set_complex_value h v)).1 = v) ∧
    (∀ (h : ComplexObject) (vs : List Int) (v : Int),
        (get_complex_value (run_set_calls h (vs ++ [v]))).1 = v) ∧
    (∀ h : ComplexObject, (get_complex_value h).2 = h) := by
  refine ⟨fun _ _ => rfl, ?_, fun _ => rfl⟩
  intro h vs v
  rw [run_set_calls, List.foldl_append]
  rfl

/-- Claim C9: a handle freshly returned by `create_complex_object`
holds the value 0 before any set call: the constructor initialises the
field to zero. -/
theorem create_complex_object_initial_zero :
    (get_complex_value create_complex_object).1 = 0 :=
  rfl

/-- Claim C10: every call of `get_string` returns the same constant
string, the bytes of the literal "Hello from C++", and `process_string`
returns with no observable effect on any state visible across the
boundary (its result carries no information and it transforms no
state). -/
theorem get_string_process_string :
    get_string = "Hello from C++".toList.map Char.toNat ∧
    (∀ input : List Nat, process_string input = ()) := by
  refine ⟨?_, fun _ => rfl⟩
  decide
